import Mathlib

/-!
Shallow embedding of `generate.py` (the photo-gallery derivation pipeline):
the cache store, the photo-id extractor, the variant planner inside
`get_flickr_image`, the two-phase `build_gallery` dispatcher, the `_resize`
command builder, and the column HTML renderer.  External effects (the
metadata page fetch, the asset download, the `identify` dimension probe and
the encode tools) are modelled by an explicit environment of oracles, and
every run is instrumented with a log counting those effect invocations.
-/

namespace PhotoGen

/-- A Flickr photo id, the stable source identifier (`SourceRef`). -/
abbrev Pid := String

/-- One persisted cache record: the JSON object `{title, width, height}`,
each field optional because a persisted entry may lack keys. -/
structure CacheEntry where
  title : Option String
  width : Option Int
  height : Option Int
deriving DecidableEq, Repr

/-- The persisted cache: a JSON object mapping photo id to entry,
modelled as an association list (python dict, insertion ordered). -/
abbrev Cache := List (Pid × CacheEntry)

/-- `cache.get(pid)`: first binding for `p`, if any. -/
def Cache.find : Cache → Pid → Option CacheEntry
  | [], _ => none
  | (q, e) :: rest, p => if q = p then some e else Cache.find rest p

/-- `{"title", "width", "height"} <= meta.keys()`. -/
def CacheEntry.complete (e : CacheEntry) : Bool :=
  e.title.isSome && e.width.isSome && e.height.isSome

/-- `cache[pid] = meta`: python dict assignment (replace the binding in
place if the key is present, else append). -/
def Cache.set : Cache → Pid → CacheEntry → Cache
  | [], p, e => [(p, e)]
  | (q, v) :: rest, p, e =>
    if q = p then (p, e) :: rest else (q, v) :: Cache.set rest p e

/-- The filesystem-and-cache-file state the script manipulates:
`cacheFile` is the content of `image_titles_cache.json` (`none` = absent),
`files` the set of existing regular files, `imgDir` whether the
`images` directory exists. -/
structure St where
  cacheFile : Option Cache
  files : List String
  imgDir : Bool
deriving DecidableEq, Repr

/-- `_load_cache`: parse the backing file, or the empty mapping if absent. -/
def loadCache (s : St) : Cache := s.cacheFile.getD []

/-- `IMG_DIR`. -/
def IMG_DIR : String := "images"

/-- `IMG_WIDTHS`. -/
def IMG_WIDTHS : List Nat := [800, 1400, 2000, 3000]

/-- `f"{IMG_DIR}/{pid}_{w}.avif"`: the primary artifact path for one width. -/
def avifPath (p : Pid) (w : Nat) : String :=
  IMG_DIR ++ "/" ++ p ++ "_" ++ toString w ++ ".avif"

/-- `f"{IMG_DIR}/{pid}_src.jpg"`: the temporary original path for one photo. -/
def tmpPath (p : Pid) : String :=
  IMG_DIR ++ "/" ++ p ++ "_src.jpg"

/-- Match `[^/]+/(\d+)` against the characters following `/photos/`. -/
def pidFrom (cs : List Char) : Option String :=
  let seg := cs.takeWhile (fun c => c ≠ '/')
  if seg.isEmpty then none
  else
    match cs.drop seg.length with
    | '/' :: rest =>
      let ds := rest.takeWhile Char.isDigit
      if ds.isEmpty then none else some (String.mk ds)
    | _ => none

/-- Scan for the leftmost position where `/photos/[^/]+/(\d+)` matches. -/
def photoIdAux : List Char → Option String
  | [] => none
  | c :: cs =>
    if (c :: cs).take 8 = "/photos/".data then
      match pidFrom ((c :: cs).drop 8) with
      | some p => some p
      | none => photoIdAux cs
    else photoIdAux cs

/-- `_photo_id`: `re.search(r"/photos/[^/]+/(\d+)", url)`, `None` meaning the
`ValueError("Bad Flickr URL")` abort. -/
def photoId (url : String) : Option String := photoIdAux url.data

/-- `str.replace(".avif", repl)` on character lists: replace every
non-overlapping occurrence, left to right (both call sites in the
source replace the literal `".avif"`). -/
def replaceAvifAux (repl : List Char) : List Char → List Char
  | '.' :: 'a' :: 'v' :: 'i' :: 'f' :: rest => repl ++ replaceAvifAux repl rest
  | c :: cs => c :: replaceAvifAux repl cs
  | [] => []

/-- python `dest.replace(".avif", repl)`. -/
def pyReplaceAvif (dest repl : String) : String :=
  String.mk (replaceAvifAux repl.data dest.data)

/-- `dest.replace(".avif", ".jpg")`: the JPEG fallback sibling of a dest. -/
def jpegOf (dest : String) : String := pyReplaceAvif dest ".jpg"

/-- `dest.replace(".avif", "_tmp.png")`: the normalized intermediate. -/
def tmpPngOf (dest : String) : String := pyReplaceAvif dest "_tmp.png"

/-- The three external command argvs `_resize` runs, in order: the
magick normalize/resize call, the cavif primary encode, the magick
JPEG fallback encode. -/
def resizeCommands (src dest : String) (width : Nat) (danger : Bool) : List (List String) :=
  let quality := if danger then "90" else "85"
  let jpegQuality := if danger then "95" else "90"
  [ ["magick", src, "-auto-orient", "-strip", "-colorspace", "sRGB",
     "-resize", toString width, tmpPngOf dest],
    ["cavif", "--quality", quality, "--speed", "1", "--depth", "8",
     "--color", "rgb", "--overwrite", tmpPngOf dest, "--output", dest],
    ["magick", tmpPngOf dest, "-quality", jpegQuality, jpegOf dest] ]

/-- Effect log of a run: counts of metadata-page fetches, asset
downloads, `identify` probes and cache-file writes, the temp originals
written by downloads, and one `(dest, width)` record per `_resize`
dispatch. -/
structure Log where
  fetches : Nat
  downloads : Nat
  probes : Nat
  saves : Nat
  tmps : List String
  encoded : List (String × Nat)
deriving DecidableEq, Repr

/-- The empty log. -/
def Log.zero : Log := ⟨0, 0, 0, 0, [], []⟩

/-- Concatenate two logs. -/
def Log.add (a b : Log) : Log :=
  ⟨a.fetches + b.fetches, a.downloads + b.downloads, a.probes + b.probes,
   a.saves + b.saves, a.tmps ++ b.tmps, a.encoded ++ b.encoded⟩

/-- The external world: `page url` is the `(title, asset-url)` pair
`_fetch_image_page` extracts, `dims assetUrl` the dimensions `identify`
reports for the downloaded content, `encodeOk` whether the external
encode tools of one `_resize` call all exit zero. -/
structure Env where
  page : String → String × String
  dims : String → Int × Int
  encodeOk : String → String → Nat → Bool → Bool

/-- The deferred resize work returned by `get_flickr_image` when it did
fresh acquisition: the temp original, the photo id (determining the
`sizes` path map), the missing widths and the banding flag. -/
structure Job where
  tmp : String
  pid : Pid
  missing : List Nat
  danger : Bool
deriving DecidableEq, Repr

/-- One entry of `resize_jobs`: `(tmp, sizes[str(w)], w, danger)`. -/
structure RJob where
  tmp : String
  dest : String
  width : Nat
  danger : Bool
deriving DecidableEq, Repr

/-- Insert a path into the file set. -/
def addFile (fs : List String) (p : String) : List String :=
  if p ∈ fs then fs else fs ++ [p]

/-- The VariantPlanner: `[w for w in IMG_WIDTHS if not os.path.exists(sizes[str(w)])]`. -/
def missingOf (widths : List Nat) (s : St) (p : Pid) : List Nat :=
  widths.filter (fun w => decide (avifPath p w ∉ s.files))

/-- `cache.get(pid, {})` against the loaded cache. -/
def entryOf (s : St) (p : Pid) : CacheEntry :=
  (Cache.find (loadCache s) p).getD ⟨none, none, none⟩

/-- Whether the cache entry for `p` in state `s` is complete. -/
def completeAt (s : St) (p : Pid) : Bool := (entryOf s p).complete

/-- The entry written on fresh acquisition: fetched title, probed dimensions. -/
def freshEntry (env : Env) (url : String) : CacheEntry :=
  ⟨some (env.page url).1, some (env.dims (env.page url).2).1,
   some (env.dims (env.page url).2).2⟩

/-- The state after the work branch of `get_flickr_image`: the `images`
directory made, the original downloaded to the temp path, the cache
updated with the fresh entry and rewritten. -/
def workSt (env : Env) (url : String) (p : Pid) (s : St) : St :=
  { cacheFile := some (Cache.set (loadCache s) p (freshEntry env url)),
    files := addFile s.files (tmpPath p),
    imgDir := true }

/-- The effect log of the work branch: one fetch, one download, one
probe, one cache save, one temp original written. -/
def workLog (p : Pid) : Log := ⟨1, 1, 1, 1, [tmpPath p], []⟩

/-- `get_flickr_image(url, danger_of_banding)`: plan the item, and when
work is triggered fetch the page, download the original, probe its
dimensions and persist the updated cache.  `none` models the
`ValueError` abort on a malformed URL. -/
def getFlickrImage (env : Env) (widths : List Nat) (url : String) (danger : Bool)
    (s : St) : Option (String × Option Job × St × Log) :=
  match photoId url with
  | none => none
  | some pid =>
    let meta := entryOf s pid
    let missing := missingOf widths s pid
    if ¬missing.isEmpty ∨ meta.complete = false then
      some ((env.page url).1, some ⟨tmpPath pid, pid, missing, danger⟩,
            workSt env url pid s, workLog pid)
    else
      some (meta.title.getD "", none, s, Log.zero)

/-- The per-item descriptor `_generate_image_data` builds for the
renderer (the constant `sizes` list is omitted; it is `IMG_WIDTHS`). -/
structure ImageData where
  id : Pid
  title : String
  width : Option Int
  height : Option Int
  resizeJob : Option Job
deriving DecidableEq, Repr

/-- `_generate_image_data(item)`: run `get_flickr_image`, re-load the
cache and package id, title, dimensions and the pending job. -/
def genImageData (env : Env) (widths : List Nat) (it : String × Bool)
    (s : St) : Option (ImageData × St × Log) :=
  match getFlickrImage env widths it.1 it.2 s with
  | none => none
  | some (title, job, s1, l) =>
    match photoId it.1 with
    | none => none
    | some pid =>
      let meta := entryOf s1 pid
      some (⟨pid, title, meta.width, meta.height, job⟩, s1, l)

/-- The `resize_jobs` entries `build_gallery` extracts from one item:
`(tmp, sizes[str(w_out)], w_out, danger)` for each missing width. -/
def jobsOf (d : ImageData) : List RJob :=
  match d.resizeJob with
  | none => []
  | some j => j.missing.map (fun w => ⟨j.tmp, avifPath j.pid w, w, j.danger⟩)

/-- Phase 1 of `build_gallery`: visit the items in order, accumulating
descriptors and the batch of resize jobs.  `none` models the phase-1
abort (bad URL), which happens before any job is executed. -/
def phase1 (env : Env) (widths : List Nat) :
    List (String × Bool) → St → Option (List ImageData × List RJob × St × Log)
  | [], s => some ([], [], s, Log.zero)
  | it :: rest, s =>
    match genImageData env widths it s with
    | none => none
    | some (d, s1, l1) =>
      match phase1 env widths rest s1 with
      | none => none
      | some (ds, js, s2, l2) => some (d :: ds, jobsOf d ++ js, s2, Log.add l1 l2)

/-- Phase 2: `pool.starmap(_resize, resize_jobs)`.  Every dispatched job
runs (the pool does not cancel outstanding work); a successful job
creates its AVIF dest and JPEG sibling (the normalized intermediate is
created and removed within the job), a failing one creates nothing.
Returns the final state, the log, and whether every job succeeded. -/
def runJobs (env : Env) : List RJob → St → St × Log × Bool
  | [], s => (s, Log.zero, true)
  | j :: js, s =>
    let ok := env.encodeOk j.tmp j.dest j.width j.danger
    let s1 : St :=
      if ok then { s with files := addFile (addFile s.files j.dest) (jpegOf j.dest) }
      else s
    let r := runJobs env js s1
    (r.1, Log.add ⟨0, 0, 0, 0, [], [(j.dest, j.width)]⟩ r.2.1, ok && r.2.2)

/-- Outcome of one `build_gallery` pipeline run: `ok` on success,
`err` when an encode job raised out of `pool.starmap` (the state is the
one at that point — in particular the temp cleanup has not run),
`fatal` for a phase-1 abort. -/
inductive RunResult where
  | ok (images : List ImageData) (s : St) (log : Log)
  | err (s : St) (log : Log)
  | fatal
deriving DecidableEq, Repr

/-- The second-pass part of `build_gallery`: if any jobs were collected,
run the whole batch, and only if `pool.starmap` returned without raising,
delete each distinct source temp file. -/
def buildGallery (env : Env) (widths : List Nat) (items : List (String × Bool))
    (s : St) : RunResult :=
  match phase1 env widths items s with
  | none => .fatal
  | some (ds, jobs, s1, l1) =>
    if jobs.isEmpty then .ok ds s1 l1
    else
      let r := runJobs env jobs s1
      if r.2.2 then
        let tmps := (jobs.map RJob.tmp).dedup
        .ok ds { r.1 with files := r.1.files.filter (fun f => decide (f ∉ tmps)) }
          (Log.add l1 r.2.1)
      else .err r.1 (Log.add l1 r.2.1)

/-- The effect log of a run outcome. -/
def RunResult.logOf : RunResult → Log
  | .ok _ _ l => l
  | .err _ l => l
  | .fatal => Log.zero

/-- Whether the run completed without error. -/
def RunResult.isOk : RunResult → Bool
  | .ok _ _ _ => true
  | _ => false

/-- `_build_image_html(pid, meta, index)` (`index` is accepted and
unused, as in the source); `none` models the `KeyError` on an
incomplete entry. -/
def buildImageHtml (pid : Pid) (meta : CacheEntry) (_index : Nat) : Option String :=
  match meta.title, meta.width, meta.height with
  | some t, some w, some h =>
    let aspectRatio := toString w ++ " / " ++ toString h
    some ("<img class=\"gallery-image\"\n         data-image-id=\"" ++ pid
      ++ "\"\n         alt=\"" ++ t
      ++ "\"\n         width=\"" ++ toString w
      ++ "\"\n         height=\"" ++ toString h
      ++ "\"\n         style=\"aspect-ratio:" ++ aspectRatio
      ++ "\"\n         src=\"data:image/gif;base64,R0lGODlhAQABAAAAACH5BAEKAAEALAAAAAABAAEAAAICTAEAOw==\">")
  | _, _, _ => none

/-- The loop body of `_build_column_html`: enumerate the items, skip a
photo id absent from the cache, render the rest.  `none` models an
uncaught exception (bad URL or incomplete entry). -/
def columnImages : List String → Cache → Nat → Option (List String)
  | [], _, _ => some []
  | url :: rest, cache, index =>
    match photoId url with
    | none => none
    | some pid =>
      match Cache.find cache pid with
      | none => columnImages rest cache (index + 1)
      | some meta =>
        match buildImageHtml pid meta index with
        | none => none
        | some h => (columnImages rest cache (index + 1)).map (fun hs => h :: hs)

/-- `_build_column_html(image_ids, cache, column_id)`. -/
def buildColumnHtml (imageIds : List String) (cache : Cache) (columnId : String) :
    Option String :=
  (columnImages imageIds cache 0).map (fun hs =>
    "<div class=\"column\" id=\"" ++ columnId ++ "\">" ++ String.join hs ++ "</div>")

/-! ### Concrete fixtures used by witnesses and counterexamples -/

/-- A metadata-page oracle used in concrete runs. -/
def pageW : String → String × String := fun _ => ("T", "B")

/-- A dimension-probe oracle used in concrete runs. -/
def dimsW : String → Int × Int := fun _ => (10, 20)

/-- An environment whose encode tools always succeed. -/
def envW : Env := ⟨pageW, dimsW, fun _ _ _ _ => true⟩

/-- An environment whose encode tools always fail. -/
def envBad : Env := ⟨pageW, dimsW, fun _ _ _ _ => false⟩

/-- A gallery item URL resolving to photo id `7`. -/
def urlSeven : String := "x/photos/a/7"

/-- A gallery item URL resolving to photo id `1`. -/
def urlOne : String := "x/photos/a/1"

/-- The empty starting state: no cache file, no files, no image dir. -/
def stEmpty : St := ⟨none, [], false⟩

/-- The artifact files of a fully built photo id `1`. -/
def builtFilesOne : List String := IMG_WIDTHS.map (avifPath "1")

/-- A complete cache entry for photo id `1`. -/
def entryOne : CacheEntry := ⟨some "T", some 10, some 20⟩

/-- A state where photo id `1` is fully built and the persisted cache
additionally holds a stale incomplete entry under key `999`. -/
def stStale : St :=
  ⟨some [("1", entryOne), ("999", ⟨some "t", none, none⟩)], builtFilesOne, true⟩

/-- A state where photo id `1` is fully built with a clean cache. -/
def stBuilt : St := ⟨some [("1", entryOne)], builtFilesOne, true⟩

/-- Verification predicate: going from `s0` to `s`, the file set only
grew, and every new file is some photo's temp original (this is how the
filesystem evolves across phase 1). -/
def onlyTmpsAdded (s0 s : St) : Prop :=
  s0.files ⊆ s.files ∧ ∀ f ∈ s.files, f ∈ s0.files ∨ ∃ q, f = tmpPath q

/-! ### Basic lemmas about the model's data operations -/

theorem Log.zero_add (l : Log) : Log.add Log.zero l = l := by
  cases l; simp [Log.add, Log.zero]

theorem Log.add_zero (l : Log) : Log.add l Log.zero = l := by
  cases l; simp [Log.add, Log.zero]

theorem mem_addFile (fs : List String) (p q : String) :
    q ∈ addFile fs p ↔ q ∈ fs ∨ q = p := by
  unfold addFile
  split
  · rename_i h
    constructor
    · exact Or.inl
    · rintro (hq | rfl)
      · exact hq
      · exact h
  · simp [List.mem_append]

theorem subset_addFile (fs : List String) (p : String) : fs ⊆ addFile fs p :=
  fun _ hq => (mem_addFile _ _ _).mpr (Or.inl hq)

theorem self_mem_addFile (fs : List String) (p : String) : p ∈ addFile fs p :=
  (mem_addFile _ _ _).mpr (Or.inr rfl)

theorem Cache.find_set (c : Cache) (p q : Pid) (e : CacheEntry) :
    Cache.find (Cache.set c p e) q = if q = p then some e else Cache.find c q := by
  induction c with
  | nil =>
    by_cases hq : q = p
    · simp [Cache.set, Cache.find, hq]
    · simp [Cache.set, Cache.find, hq, Ne.symm hq]
  | cons x rest ih =>
    obtain ⟨r, v⟩ := x
    by_cases hr : r = p
    · subst hr
      by_cases hq : q = r
      · simp [Cache.set, Cache.find, hq]
      · simp [Cache.set, Cache.find, hq, Ne.symm hq]
    · by_cases hqr : r = q
      · subst hqr
        simp [Cache.set, Cache.find, hr]
      · simp [Cache.set, Cache.find, hr, hqr, ih]

theorem avifPath_lastChar (p : Pid) (w : Nat) :
    (avifPath p w).data.getLast? = some 'f' := by
  unfold avifPath
  rw [String.data_append, List.getLast?_append_of_ne_nil _ (by decide)]
  decide

theorem tmpPath_lastChar (p : Pid) : (tmpPath p).data.getLast? = some 'g' := by
  unfold tmpPath
  rw [String.data_append, List.getLast?_append_of_ne_nil _ (by decide)]
  decide

theorem avif_ne_tmp (p q : Pid) (w : Nat) : avifPath p w ≠ tmpPath q := by
  intro h
  have h2 : (avifPath p w).data.getLast? = (tmpPath q).data.getLast? := by rw [h]
  rw [avifPath_lastChar, tmpPath_lastChar] at h2
  exact absurd h2 (by decide)

theorem tmpPath_inj : Function.Injective tmpPath := by
  intro p q h
  have hd := congrArg String.data h
  unfold tmpPath at hd
  simp only [String.data_append, List.append_assoc] at hd
  have h2 := List.append_cancel_left hd
  have h3 := List.append_cancel_left h2
  have h4 := List.append_cancel_right h3
  exact congrArg String.mk h4

/-! ### Characterization of `get_flickr_image` and `_generate_image_data` -/

theorem entryOf_workSt_self (env : Env) (url : String) (p : Pid) (s : St) :
    entryOf (workSt env url p s) p = freshEntry env url := by
  simp [entryOf, workSt, loadCache, Cache.find_set]

theorem entryOf_workSt_ne (env : Env) (url : String) (p q : Pid) (s : St)
    (hq : q ≠ p) : entryOf (workSt env url p s) q = entryOf s q := by
  simp [entryOf, workSt, loadCache, Cache.find_set, hq]

theorem freshEntry_complete (env : Env) (url : String) :
    (freshEntry env url).complete = true := rfl

theorem completeAt_workSt (env : Env) (url : String) (p q : Pid) (s : St)
    (h : completeAt s q = true) : completeAt (workSt env url p s) q = true := by
  by_cases hq : q = p
  · subst hq
    rw [completeAt, entryOf_workSt_self]
    exact freshEntry_complete env url
  · rw [completeAt, entryOf_workSt_ne env url p q s hq]
    exact h

theorem completeAt_congr (s s' : St) (p : Pid) (h : s.cacheFile = s'.cacheFile) :
    completeAt s p = completeAt s' p := by
  simp [completeAt, entryOf, loadCache, h]

theorem missingOf_eq_nil_iff (widths : List Nat) (s : St) (p : Pid) :
    missingOf widths s p = [] ↔ ∀ w ∈ widths, avifPath p w ∈ s.files := by
  simp [missingOf, List.filter_eq_nil_iff]

theorem mem_missingOf (widths : List Nat) (s : St) (p : Pid) (w : Nat) :
    w ∈ missingOf widths s p ↔ w ∈ widths ∧ avifPath p w ∉ s.files := by
  simp [missingOf, List.mem_filter]

theorem getFlickrImage_work (env : Env) (widths : List Nat) (url : String)
    (danger : Bool) (s : St) (pid : Pid) (hp : photoId url = some pid)
    (hw : missingOf widths s pid ≠ [] ∨ completeAt s pid = false) :
    getFlickrImage env widths url danger s =
      some ((env.page url).1,
            some ⟨tmpPath pid, pid, missingOf widths s pid, danger⟩,
            workSt env url pid s, workLog pid) := by
  unfold getFlickrImage
  rw [hp]
  have hcond : ¬(missingOf widths s pid).isEmpty = true ∨
      (entryOf s pid).complete = false := by
    rcases hw with h | h
    · exact Or.inl (by simpa [List.isEmpty_iff] using h)
    · exact Or.inr (by simpa [completeAt] using h)
  simp only [if_pos hcond]

theorem getFlickrImage_noWork (env : Env) (widths : List Nat) (url : String)
    (danger : Bool) (s : St) (pid : Pid) (hp : photoId url = some pid)
    (hm : missingOf widths s pid = []) (hc : completeAt s pid = true) :
    getFlickrImage env widths url danger s =
      some ((entryOf s pid).title.getD "", none, s, Log.zero) := by
  unfold getFlickrImage
  rw [hp]
  have hcond : ¬(¬(missingOf widths s pid).isEmpty = true ∨
      (entryOf s pid).complete = false) := by
    rw [hm]
    rw [completeAt] at hc
    simp [hc]
  simp only [if_neg hcond]

theorem getFlickrImage_cases (env : Env) (widths : List Nat) (url : String)
    (danger : Bool) (s : St) (t : String) (j : Option Job) (s1 : St) (l : Log)
    (h : getFlickrImage env widths url danger s = some (t, j, s1, l)) :
    ∃ pid, photoId url = some pid ∧
      ((missingOf widths s pid = [] ∧ completeAt s pid = true ∧
        t = (entryOf s pid).title.getD "" ∧ j = none ∧ s1 = s ∧ l = Log.zero) ∨
       ((missingOf widths s pid ≠ [] ∨ completeAt s pid = false) ∧
        t = (env.page url).1 ∧
        j = some ⟨tmpPath pid, pid, missingOf widths s pid, danger⟩ ∧
        s1 = workSt env url pid s ∧ l = workLog pid)) := by
  cases hp : photoId url with
  | none => rw [getFlickrImage, hp] at h; cases h
  | some pid =>
    refine ⟨pid, rfl, ?_⟩
    by_cases hm : missingOf widths s pid = []
    · by_cases hc : completeAt s pid = true
      · rw [getFlickrImage_noWork env widths url danger s pid hp hm hc] at h
        obtain ⟨h1, h2, h3, h4⟩ := Prod.mk.injEq .. ▸ (Option.some.injEq .. ▸ h)
        exact Or.inl ⟨hm, hc, by simp_all⟩
      · have hw : missingOf widths s pid ≠ [] ∨ completeAt s pid = false :=
          Or.inr (by simpa using hc)
        rw [getFlickrImage_work env widths url danger s pid hp hw] at h
        exact Or.inr ⟨hw, by simp_all⟩
    · have hw : missingOf widths s pid ≠ [] ∨ completeAt s pid = false := Or.inl hm
      rw [getFlickrImage_work env widths url danger s pid hp hw] at h
      exact Or.inr ⟨hw, by simp_all⟩

theorem genImageData_noWork (env : Env) (widths : List Nat) (url : String)
    (danger : Bool) (s : St) (pid : Pid) (hp : photoId url = some pid)
    (hm : missingOf widths s pid = []) (hc : completeAt s pid = true) :
    genImageData env widths (url, danger) s =
      some (⟨pid, (entryOf s pid).title.getD "", (entryOf s pid).width,
             (entryOf s pid).height, none⟩, s, Log.zero) := by
  unfold genImageData
  simp only [getFlickrImage_noWork env widths url danger s pid hp hm hc, hp]

theorem genImageData_work (env : Env) (widths : List Nat) (url : String)
    (danger : Bool) (s : St) (pid : Pid) (hp : photoId url = some pid)
    (hw : missingOf widths s pid ≠ [] ∨ completeAt s pid = false) :
    genImageData env widths (url, danger) s =
      some (⟨pid, (env.page url).1, (freshEntry env url).width,
             (freshEntry env url).height,
             some ⟨tmpPath pid, pid, missingOf widths s pid, danger⟩⟩,
            workSt env url pid s, workLog pid) := by
  unfold genImageData
  simp only [getFlickrImage_work env widths url danger s pid hp hw, hp,
    entryOf_workSt_self]

theorem genImageData_cases (env : Env) (widths : List Nat) (it : String × Bool)
    (s : St) (d : ImageData) (s1 : St) (l : Log)
    (h : genImageData env widths it s = some (d, s1, l)) :
    ∃ pid, photoId it.1 = some pid ∧
      ((missingOf widths s pid = [] ∧ completeAt s pid = true ∧
        d = ⟨pid, (entryOf s pid).title.getD "", (entryOf s pid).width,
             (entryOf s pid).height, none⟩ ∧ s1 = s ∧ l = Log.zero) ∨
       ((missingOf widths s pid ≠ [] ∨ completeAt s pid = false) ∧
        d = ⟨pid, (env.page it.1).1, (freshEntry env it.1).width,
             (freshEntry env it.1).height,
             some ⟨tmpPath pid, pid, missingOf widths s pid, it.2⟩⟩ ∧
        s1 = workSt env it.1 pid s ∧ l = workLog pid)) := by
  obtain ⟨url, danger⟩ := it
  cases hp : photoId url with
  | none =>
    unfold genImageData getFlickrImage at h
    rw [hp] at h
    cases h
  | some pid =>
    refine ⟨pid, rfl, ?_⟩
    by_cases hm : missingOf widths s pid = []
    · by_cases hc : completeAt s pid = true
      · rw [genImageData_noWork env widths url danger s pid hp hm hc] at h
        simp only [Option.some.injEq, Prod.mk.injEq] at h
        exact Or.inl ⟨hm, hc, h.1.symm, h.2.1.symm, h.2.2.symm⟩
      · have hw : missingOf widths s pid ≠ [] ∨ completeAt s pid = false :=
          Or.inr (by simpa using hc)
        rw [genImageData_work env widths url danger s pid hp hw] at h
        simp only [Option.some.injEq, Prod.mk.injEq] at h
        exact Or.inr ⟨hw, h.1.symm, h.2.1.symm, h.2.2.symm⟩
    · have hw : missingOf widths s pid ≠ [] ∨ completeAt s pid = false := Or.inl hm
      rw [genImageData_work env widths url danger s pid hp hw] at h
      simp only [Option.some.injEq, Prod.mk.injEq] at h
      exact Or.inr ⟨hw, h.1.symm, h.2.1.symm, h.2.2.symm⟩

/-! ### Phase-1 invariants -/

theorem onlyTmpsAdded_refl (s : St) : onlyTmpsAdded s s :=
  ⟨fun _ h => h, fun _ hf => Or.inl hf⟩

theorem onlyTmpsAdded_trans (s t u : St) (h1 : onlyTmpsAdded s t)
    (h2 : onlyTmpsAdded t u) : onlyTmpsAdded s u := by
  refine ⟨h1.1.trans h2.1, fun f hf => ?_⟩
  rcases h2.2 f hf with hft | hq
  · exact h1.2 f hft
  · exact Or.inr hq

theorem onlyTmpsAdded_workSt (env : Env) (url : String) (p : Pid) (s : St) :
    onlyTmpsAdded s (workSt env url p s) := by
  refine ⟨subset_addFile _ _, fun f hf => ?_⟩
  rcases (mem_addFile s.files (tmpPath p) f).mp hf with hfs | rfl
  · exact Or.inl hfs
  · exact Or.inr ⟨p, rfl⟩

theorem workSt_cacheFile_some (env : Env) (url : String) (p : Pid) (s : St) :
    (workSt env url p s).cacheFile =
      some (Cache.set (loadCache s) p (freshEntry env url)) := rfl

theorem phase1_state (env : Env) (widths : List Nat) :
    ∀ (items : List (String × Bool)) (s : St) (ds : List ImageData)
      (js : List RJob) (s1 : St) (l : Log),
      phase1 env widths items s = some (ds, js, s1, l) →
      onlyTmpsAdded s s1 ∧ ∀ p, completeAt s p = true → completeAt s1 p = true := by
  intro items
  induction items with
  | nil =>
    intro s ds js s1 l h
    simp only [phase1, Option.some.injEq, Prod.mk.injEq] at h
    obtain ⟨-, -, hs, -⟩ := h
    subst hs
    exact ⟨onlyTmpsAdded_refl s, fun _ h => h⟩
  | cons it rest ih =>
    intro s ds js s1 l h
    unfold phase1 at h
    split at h
    · cases h
    · rename_i r d sA l1 hg
      split at h
      · cases h
      · rename_i r2 ds2 js2 sB l2 hr
        simp only [Option.some.injEq, Prod.mk.injEq] at h
        obtain ⟨-, -, hsB, -⟩ := h
        subst hsB
        obtain ⟨hAdd, hCmp⟩ := ih sA ds2 js2 sB l2 hr
        obtain ⟨pid, hp, hcase⟩ := genImageData_cases env widths it s d sA l1 hg
        rcases hcase with ⟨-, -, -, hs, -⟩ | ⟨-, -, hs, -⟩
        · subst hs
          exact ⟨hAdd, hCmp⟩
        · subst hs
          refine ⟨onlyTmpsAdded_trans _ _ _ (onlyTmpsAdded_workSt env it.1 pid s) hAdd, ?_⟩
          intro q hq
          exact hCmp q (completeAt_workSt env it.1 pid q s hq)

theorem jobsOf_none (d : ImageData) (h : d.resizeJob = none) : jobsOf d = [] := by
  unfold jobsOf
  rw [h]

theorem mem_jobsOf (d : ImageData) (jb : Job) (h : d.resizeJob = some jb) (j : RJob) :
    j ∈ jobsOf d ↔ ∃ w ∈ jb.missing, j = ⟨jb.tmp, avifPath jb.pid w, w, jb.danger⟩ := by
  unfold jobsOf
  rw [h]
  simp [List.mem_map, eq_comm]

theorem phase1_jobs (env : Env) (widths : List Nat) :
    ∀ (items : List (String × Bool)) (s : St) (ds : List ImageData)
      (js : List RJob) (s1 : St) (l : Log),
      phase1 env widths items s = some (ds, js, s1, l) →
      ∀ j ∈ js, ∃ q, j.tmp = tmpPath q ∧ j.dest = avifPath q j.width ∧ j.width ∈ widths := by
  intro items
  induction items with
  | nil =>
    intro s ds js s1 l h
    simp only [phase1, Option.some.injEq, Prod.mk.injEq] at h
    obtain ⟨-, hjs, -, -⟩ := h
    subst hjs
    intro j hj
    cases hj
  | cons it rest ih =>
    intro s ds js s1 l h
    unfold phase1 at h
    split at h
    · cases h
    · rename_i r d sA l1 hg
      split at h
      · cases h
      · rename_i r2 ds2 js2 sB l2 hr
        simp only [Option.some.injEq, Prod.mk.injEq] at h
        obtain ⟨-, hjs, -, -⟩ := h
        subst hjs
        intro j hj
        rcases List.mem_append.mp hj with hj1 | hj2
        · obtain ⟨pid, hp, hcase⟩ := genImageData_cases env widths it s d sA l1 hg
          rcases hcase with ⟨-, -, hd, -, -⟩ | ⟨-, hd, -, -⟩
          · rw [jobsOf_none d (by rw [hd])] at hj1
            cases hj1
          · have hjb : d.resizeJob = some ⟨tmpPath pid, pid, missingOf widths s pid, it.2⟩ := by
              rw [hd]
            obtain ⟨w, hw, hj⟩ := (mem_jobsOf d _ hjb j).mp hj1
            subst hj
            exact ⟨pid, rfl, rfl, ((mem_missingOf widths s pid w).mp hw).1⟩
        · exact ih sA ds2 js2 sB l2 hr j hj2

theorem phase1_built (env : Env) (widths : List Nat) :
    ∀ (items : List (String × Bool)) (s : St) (ds : List ImageData)
      (js : List RJob) (s1 : St) (l : Log),
      phase1 env widths items s = some (ds, js, s1, l) →
      ∀ it ∈ items, ∃ p, photoId it.1 = some p ∧ completeAt s1 p = true ∧
        ∀ w ∈ widths, avifPath p w ∈ s1.files ∨
          ∃ j ∈ js, j.dest = avifPath p w ∧ j.tmp = tmpPath p := by
  intro items
  induction items with
  | nil =>
    intro s ds js s1 l h it hit
    cases hit
  | cons it0 rest ih =>
    intro s ds js s1 l h it hit
    unfold phase1 at h
    split at h
    · cases h
    · rename_i r d sA l1 hg
      split at h
      · cases h
      · rename_i r2 ds2 js2 sB l2 hr
        simp only [Option.some.injEq, Prod.mk.injEq] at h
        obtain ⟨-, hjs, hsB, -⟩ := h
        subst hjs
        subst hsB
        rcases List.mem_cons.mp hit with rfl | hit2
        · -- the head item
          obtain ⟨pid, hp, hcase⟩ := genImageData_cases env widths it s d sA l1 hg
          obtain ⟨hAdd, hCmp⟩ := phase1_state env widths rest sA ds2 js2 sB l2 hr
          rcases hcase with ⟨hm, hc, hd, hs, -⟩ | ⟨-, hd, hs, -⟩
          · subst hs
            refine ⟨pid, hp, hCmp pid hc, fun w hw => Or.inl ?_⟩
            exact hAdd.1 ((missingOf_eq_nil_iff widths sA pid).mp hm w hw)
          · subst hs
            refine ⟨pid, hp, ?_, ?_⟩
            · refine hCmp pid ?_
              rw [completeAt, entryOf_workSt_self]
              exact freshEntry_complete env it.1
            · intro w hw
              by_cases hmem : w ∈ missingOf widths s pid
              · refine Or.inr ⟨⟨tmpPath pid, avifPath pid w, w, it.2⟩, ?_, rfl, rfl⟩
                refine List.mem_append.mpr (Or.inl ?_)
                have hjb : d.resizeJob =
                    some ⟨tmpPath pid, pid, missingOf widths s pid, it.2⟩ := by
                  rw [hd]
                exact (mem_jobsOf d _ hjb _).mpr ⟨w, hmem, rfl⟩
              · have hin : avifPath pid w ∈ s.files := by
                  by_contra hnin
                  exact hmem ((mem_missingOf widths s pid w).mpr ⟨hw, hnin⟩)
                refine Or.inl (hAdd.1 ?_)
                exact subset_addFile s.files (tmpPath pid) hin
        · -- an item of the tail
          obtain ⟨p, hp, hc, hfiles⟩ := ih sA ds2 js2 sB l2 hr it hit2
          refine ⟨p, hp, hc, fun w hw => ?_⟩
          rcases hfiles w hw with hmem | ⟨j, hj, hdest⟩
          · exact Or.inl hmem
          · exact Or.inr ⟨j, List.mem_append.mpr (Or.inr hj), hdest⟩

theorem phase1_noWork (env : Env) (widths : List Nat) :
    ∀ (items : List (String × Bool)) (s : St),
      (∀ it ∈ items, ∃ p, photoId it.1 = some p ∧ completeAt s p = true ∧
        missingOf widths s p = []) →
      ∃ ds, phase1 env widths items s = some (ds, [], s, Log.zero) := by
  intro items
  induction items with
  | nil =>
    intro s _
    exact ⟨[], rfl⟩
  | cons it rest ih =>
    intro s hall
    obtain ⟨p, hp, hc, hm⟩ := hall it (List.mem_cons_self it rest)
    obtain ⟨ds2, hrest⟩ := ih s (fun i hi => hall i (List.mem_cons_of_mem it hi))
    obtain ⟨url, danger⟩ := it
    refine ⟨⟨p, (entryOf s p).title.getD "", (entryOf s p).width,
            (entryOf s p).height, none⟩ :: ds2, ?_⟩
    unfold phase1
    simp only [genImageData_noWork env widths url danger s p hp hm hc, hrest, jobsOf]
    simp [Log.add, Log.zero]

/-! ### Phase-2 (`pool.starmap`) invariants -/

theorem runJobs_state (env : Env) :
    ∀ (js : List RJob) (s : St),
      (runJobs env js s).1.cacheFile = s.cacheFile ∧
      s.files ⊆ (runJobs env js s).1.files := by
  intro js
  induction js with
  | nil =>
    intro s
    exact ⟨rfl, fun _ h => h⟩
  | cons j rest ih =>
    intro s
    cases hok : env.encodeOk j.tmp j.dest j.width j.danger
    · simpa [runJobs, hok] using ih s
    · have h2 := ih { s with files := addFile (addFile s.files j.dest) (jpegOf j.dest) }
      refine ⟨by simpa [runJobs, hok] using h2.1, ?_⟩
      have hsub : s.files ⊆ addFile (addFile s.files j.dest) (jpegOf j.dest) :=
        (subset_addFile s.files j.dest).trans (subset_addFile _ _)
      simpa [runJobs, hok] using hsub.trans h2.2

theorem runJobs_log (env : Env) :
    ∀ (js : List RJob) (s : St),
      (runJobs env js s).2.1 = ⟨0, 0, 0, 0, [], js.map (fun j => (j.dest, j.width))⟩ := by
  intro js
  induction js with
  | nil =>
    intro s
    rfl
  | cons j rest ih =>
    intro s
    cases hok : env.encodeOk j.tmp j.dest j.width j.danger <;>
      simp [runJobs, hok, ih, Log.add]

theorem runJobs_dest (env : Env) :
    ∀ (js : List RJob) (s : St), (runJobs env js s).2.2 = true →
      ∀ j ∈ js, j.dest ∈ (runJobs env js s).1.files := by
  intro js
  induction js with
  | nil =>
    intro s _ j hj
    cases hj
  | cons j0 rest ih =>
    intro s hok j hj
    cases hko : env.encodeOk j0.tmp j0.dest j0.width j0.danger
    · exfalso
      have : (runJobs env (j0 :: rest) s).2.2 = false := by
        simp [runJobs, hko]
      rw [this] at hok
      cases hok
    · have hall : (runJobs env rest
          { s with files := addFile (addFile s.files j0.dest) (jpegOf j0.dest) }).2.2 = true := by
        have h2 : (runJobs env (j0 :: rest) s).2.2 =
            (runJobs env rest
              { s with files := addFile (addFile s.files j0.dest) (jpegOf j0.dest) }).2.2 := by
          simp [runJobs, hko]
        rw [h2] at hok
        exact hok
      have hfin : (runJobs env (j0 :: rest) s).1 =
          (runJobs env rest
            { s with files := addFile (addFile s.files j0.dest) (jpegOf j0.dest) }).1 := by
        simp [runJobs, hko]
      rcases List.mem_cons.mp hj with rfl | hj2
      · rw [hfin]
        refine (runJobs_state env rest _).2 ?_
        exact subset_addFile _ _ (self_mem_addFile s.files j.dest)
      · rw [hfin]
        exact ih _ hall j hj2

/-! ### The claims -/

/-- C1.  Idempotence of the full pipeline: a successful `build_gallery`
run leaves a state from which running again with identical input
performs zero network calls (no page fetch, no download) and zero
external-tool invocations (no `identify` probe, no encode) — the second
run succeeds with the very same state and the all-zero effect log. -/
theorem gallery_second_run_silent (env : Env) (widths : List Nat)
    (items : List (String × Bool)) (s : St) (ds : List ImageData) (s1 : St)
    (l : Log) (h : buildGallery env widths items s = .ok ds s1 l) :
    ∃ ds2, buildGallery env widths items s1 = .ok ds2 s1 Log.zero := by
  unfold buildGallery at h
  split at h
  · cases h
  · rename_i r ds0 js0 sA lA h1
    split at h
    · rename_i hje
      simp only [RunResult.ok.injEq] at h
      obtain ⟨-, hsA, -⟩ := h
      subst hsA
      have hje2 : js0 = [] := List.isEmpty_iff.mp hje
      subst hje2
      have hb := phase1_built env widths items s ds0 [] sA lA h1
      have hall : ∀ it ∈ items, ∃ p, photoId it.1 = some p ∧
          completeAt sA p = true ∧ missingOf widths sA p = [] := by
        intro it hit
        obtain ⟨p, hp, hc, hf⟩ := hb it hit
        refine ⟨p, hp, hc, (missingOf_eq_nil_iff widths sA p).mpr fun w hw => ?_⟩
        rcases hf w hw with hmem | ⟨j, hj, -⟩
        · exact hmem
        · cases hj
      obtain ⟨ds2, h2⟩ := phase1_noWork env widths items sA hall
      refine ⟨ds2, ?_⟩
      unfold buildGallery
      rw [h2]
      simp
    · rename_i hje
      dsimp only at h
      split at h
      · rename_i hok
        simp only [RunResult.ok.injEq] at h
        obtain ⟨-, hsA, -⟩ := h
        subst hsA
        have hb := phase1_built env widths items s ds0 js0 sA lA h1
        have hcf : (runJobs env js0 sA).1.cacheFile = sA.cacheFile :=
          (runJobs_state env js0 sA).1
        have hall : ∀ it ∈ items, ∃ p, photoId it.1 = some p ∧
            completeAt { (runJobs env js0 sA).1 with
              files := (runJobs env js0 sA).1.files.filter
                (fun f => decide (f ∉ (js0.map RJob.tmp).dedup)) } p = true ∧
            missingOf widths { (runJobs env js0 sA).1 with
              files := (runJobs env js0 sA).1.files.filter
                (fun f => decide (f ∉ (js0.map RJob.tmp).dedup)) } p = [] := by
          intro it hit
          obtain ⟨p, hp, hc, hf⟩ := hb it hit
          refine ⟨p, hp, ?_, ?_⟩
          · rw [completeAt_congr _ sA p (by simpa using hcf)]
            exact hc
          · refine (missingOf_eq_nil_iff _ _ _).mpr fun w hw => ?_
            have hmem2 : avifPath p w ∈ (runJobs env js0 sA).1.files := by
              rcases hf w hw with hmem | ⟨j, hj, hdest, -⟩
              · exact (runJobs_state env js0 sA).2 hmem
              · have := runJobs_dest env js0 sA hok j hj
                rwa [hdest] at this
            refine List.mem_filter.mpr ⟨hmem2, ?_⟩
            simp only [decide_eq_true_eq]
            intro htmps
            obtain ⟨j, hjmem, hjtmp⟩ :
                ∃ j ∈ js0, j.tmp = avifPath p w := by
              obtain ⟨j, hjmem, hjtmp⟩ :=
                List.mem_map.mp (List.mem_dedup.mp htmps)
              exact ⟨j, hjmem, hjtmp⟩
            obtain ⟨q, hq, -, -⟩ :=
              phase1_jobs env widths items s ds0 js0 sA lA h1 j hjmem
            rw [hq] at hjtmp
            exact avif_ne_tmp p q w hjtmp.symm
        obtain ⟨ds2, h2⟩ := phase1_noWork env widths items _ hall
        refine ⟨ds2, ?_⟩
        unfold buildGallery
        rw [h2]
        simp
      · cases h

/-- Witness for C1: a concrete fresh one-item run succeeds, and the
idempotence theorem applies to its final state. -/
theorem gallery_second_run_silent_witness :
    ∃ ds2, buildGallery envW IMG_WIDTHS [(urlSeven, false)]
        ⟨some [("7", ⟨some "T", some 10, some 20⟩)],
         ["images/7_800.avif", "images/7_800.jpg", "images/7_1400.avif",
          "images/7_1400.jpg", "images/7_2000.avif", "images/7_2000.jpg",
          "images/7_3000.avif", "images/7_3000.jpg"], true⟩ =
      RunResult.ok ds2
        ⟨some [("7", ⟨some "T", some 10, some 20⟩)],
         ["images/7_800.avif", "images/7_800.jpg", "images/7_1400.avif",
          "images/7_1400.jpg", "images/7_2000.avif", "images/7_2000.jpg",
          "images/7_3000.avif", "images/7_3000.jpg"], true⟩ Log.zero :=
  gallery_second_run_silent envW IMG_WIDTHS [(urlSeven, false)] stEmpty
    [⟨"7", "T", some 10, some 20,
      some ⟨"images/7_src.jpg", "7", [800, 1400, 2000, 3000], false⟩⟩]
    ⟨some [("7", ⟨some "T", some 10, some 20⟩)],
     ["images/7_800.avif", "images/7_800.jpg", "images/7_1400.avif",
      "images/7_1400.jpg", "images/7_2000.avif", "images/7_2000.jpg",
      "images/7_3000.avif", "images/7_3000.jpg"], true⟩
    ⟨1, 1, 1, 1, ["images/7_src.jpg"],
     [("images/7_800.avif", 800), ("images/7_1400.avif", 1400),
      ("images/7_2000.avif", 2000), ("images/7_3000.avif", 3000)]⟩
    (by decide)

/-- C2.  Refetch trigger: `get_flickr_image` performs the
fetch/download/probe/cache-save work (each exactly once, with a pending
job) precisely when some configured width's artifact is missing or the
cache entry lacks one of title/width/height; otherwise it returns the
cached title with no job, unchanged state and an all-zero effect log. -/
theorem getFlickrImage_work_iff (env : Env) (widths : List Nat) (url : String)
    (danger : Bool) (s : St) (pid : Pid) (hp : photoId url = some pid) :
    ((missingOf widths s pid ≠ [] ∨ completeAt s pid = false) →
      getFlickrImage env widths url danger s =
        some ((env.page url).1,
              some ⟨tmpPath pid, pid, missingOf widths s pid, danger⟩,
              workSt env url pid s, workLog pid)) ∧
    (missingOf widths s pid = [] ∧ completeAt s pid = true →
      getFlickrImage env widths url danger s =
        some ((entryOf s pid).title.getD "", none, s, Log.zero)) :=
  ⟨fun hw => getFlickrImage_work env widths url danger s pid hp hw,
   fun hmc => getFlickrImage_noWork env widths url danger s pid hp hmc.1 hmc.2⟩

/-- Witness for C2: on the empty state, every width of photo 7 is
missing, and the work branch fires with exactly one fetch, download,
probe and cache save. -/
theorem getFlickrImage_work_iff_witness :
    getFlickrImage envW IMG_WIDTHS urlSeven false stEmpty =
      some ((envW.page urlSeven).1,
            some ⟨tmpPath "7", "7", missingOf IMG_WIDTHS stEmpty "7", false⟩,
            workSt envW urlSeven "7" stEmpty, workLog "7") :=
  (getFlickrImage_work_iff envW IMG_WIDTHS urlSeven false stEmpty "7"
    (by decide)).1 (Or.inl (by decide))

/-- C8.  Cache load: when the backing file is absent `_load_cache`
returns the empty mapping without failing, and when it is present it
returns the full persisted mapping. -/
theorem loadCache_missing_file (fs : List String) (d : Bool) :
    loadCache ⟨none, fs, d⟩ = [] ∧ ∀ c : Cache, loadCache ⟨some c, fs, d⟩ = c :=
  ⟨rfl, fun _ => rfl⟩

/-- C9.  No-op frame: when every configured artifact of the item exists
and its cache entry is complete, `get_flickr_image` performs no writes
at all — the resulting state is exactly the input state (cache file not
rewritten, no file or directory created or deleted), the job fields are
`None`, the effect log is zero, and the cached title is returned. -/
theorem getFlickrImage_noop_frame (env : Env) (widths : List Nat) (url : String)
    (danger : Bool) (s : St) (pid : Pid) (hp : photoId url = some pid)
    (hart : ∀ w ∈ widths, avifPath pid w ∈ s.files)
    (hc : completeAt s pid = true) :
    getFlickrImage env widths url danger s =
      some ((entryOf s pid).title.getD "", none, s, Log.zero) :=
  getFlickrImage_noWork env widths url danger s pid hp
    ((missingOf_eq_nil_iff widths s pid).mpr hart) hc

/-- Witness for C9: photo 1 fully built, complete entry — the call is a
pure read. -/
theorem getFlickrImage_noop_frame_witness :
    getFlickrImage envW IMG_WIDTHS urlOne false stBuilt =
      some ((entryOf stBuilt "1").title.getD "", none, stBuilt, Log.zero) :=
  getFlickrImage_noop_frame envW IMG_WIDTHS urlOne false stBuilt "1"
    (by decide) (by decide) (by decide)

/-- C3 counterexample: a successful run (photo 1 fully built, nothing to
do) leaves the pre-existing incomplete entry under key `999` in the
persisted cache, so not every SourceRef present in the cache after a
successful run has width and height. -/
theorem cache_completeness_counterexample :
    buildGallery envW IMG_WIDTHS [(urlOne, false)] stStale =
      RunResult.ok [⟨"1", "T", some 10, some 20, none⟩] stStale Log.zero ∧
    Cache.find (loadCache stStale) "999" = some ⟨some "t", none, none⟩ := by
  constructor <;> decide

theorem loadCache_congr (s s' : St) (h : s.cacheFile = s'.cacheFile) :
    loadCache s = loadCache s' := by
  simp [loadCache, h]

theorem missingOf_workSt (env : Env) (url : String) (widths : List Nat)
    (q p : Pid) (s : St) :
    missingOf widths (workSt env url q s) p = missingOf widths s p := by
  unfold missingOf
  refine List.filter_congr fun w _ => ?_
  have hiff : avifPath p w ∈ (workSt env url q s).files ↔ avifPath p w ∈ s.files := by
    show avifPath p w ∈ addFile s.files (tmpPath q) ↔ _
    rw [mem_addFile]
    constructor
    · rintro (h | h)
      · exact h
      · exact absurd h (avif_ne_tmp p q w)
    · exact Or.inl
  simp [hiff]

theorem runJobs_allOk (env : Env)
    (henc : ∀ a b w dg, env.encodeOk a b w dg = true) :
    ∀ (js : List RJob) (s : St), (runJobs env js s).2.2 = true := by
  intro js
  induction js with
  | nil => intro s; rfl
  | cons j rest ih =>
    intro s
    simp [runJobs, henc, ih]

theorem phase1_cons_eq (env : Env) (widths : List Nat) (it : String × Bool)
    (rest : List (String × Bool)) (s : St) (d : ImageData) (sA : St) (l1 : Log)
    (ds : List ImageData) (js : List RJob) (sB : St) (l2 : Log)
    (hg : genImageData env widths it s = some (d, sA, l1))
    (hr : phase1 env widths rest sA = some (ds, js, sB, l2)) :
    phase1 env widths (it :: rest) s =
      some (d :: ds, jobsOf d ++ js, sB, Log.add l1 l2) := by
  simp only [phase1, hg, hr]

theorem buildGallery_eq_noJobs (env : Env) (widths : List Nat)
    (items : List (String × Bool)) (s : St) (ds : List ImageData)
    (sA : St) (l1 : Log)
    (h1 : phase1 env widths items s = some (ds, [], sA, l1)) :
    buildGallery env widths items s = .ok ds sA l1 := by
  simp [buildGallery, h1]

theorem buildGallery_eq_ok (env : Env) (widths : List Nat)
    (items : List (String × Bool)) (s : St) (ds : List ImageData)
    (js : List RJob) (sA : St) (l1 : Log)
    (h1 : phase1 env widths items s = some (ds, js, sA, l1))
    (hne : js ≠ [])
    (hok : (runJobs env js sA).2.2 = true) :
    buildGallery env widths items s =
      .ok ds { (runJobs env js sA).1 with
               files := (runJobs env js sA).1.files.filter
                 (fun f => decide (f ∉ (js.map RJob.tmp).dedup)) }
        (Log.add l1 (runJobs env js sA).2.1) := by
  simp only [buildGallery, h1]
  rw [if_neg (by simpa [List.isEmpty_iff] using hne)]
  rw [if_pos hok]

theorem phase1_cache_fresh (env : Env) (widths : List Nat) :
    ∀ (items : List (String × Bool)) (s : St) (ds : List ImageData)
      (js : List RJob) (s1 : St) (l : Log),
      phase1 env widths items s = some (ds, js, s1, l) →
      ∀ p e, Cache.find (loadCache s1) p = some e →
        Cache.find (loadCache s) p = some e ∨ ∃ url, e = freshEntry env url := by
  intro items
  induction items with
  | nil =>
    intro s ds js s1 l h
    simp only [phase1, Option.some.injEq, Prod.mk.injEq] at h
    obtain ⟨-, -, hs, -⟩ := h
    subst hs
    intro p e he
    exact Or.inl he
  | cons it rest ih =>
    intro s ds js s1 l h
    unfold phase1 at h
    split at h
    · cases h
    · rename_i r d sA l1 hg
      split at h
      · cases h
      · rename_i r2 ds2 js2 sB l2 hr
        simp only [Option.some.injEq, Prod.mk.injEq] at h
        obtain ⟨-, -, hsB, -⟩ := h
        subst hsB
        intro p e he
        obtain ⟨pid, hp, hcase⟩ := genImageData_cases env widths it s d sA l1 hg
        rcases hcase with ⟨-, -, -, hs, -⟩ | ⟨-, -, hs, -⟩
        · subst hs
          exact ih sA ds2 js2 sB l2 hr p e he
        · rcases ih sA ds2 js2 sB l2 hr p e he with hmid | hfresh
          · subst hs
            rw [show loadCache (workSt env it.1 pid s) =
                Cache.set (loadCache s) pid (freshEntry env it.1) from rfl,
              Cache.find_set] at hmid
            by_cases hpp : p = pid
            · rw [if_pos hpp] at hmid
              exact Or.inr ⟨it.1, (Option.some.inj hmid).symm⟩
            · rw [if_neg hpp] at hmid
              exact Or.inl hmid
          · exact Or.inr hfresh

/-- C3 (amended).  After a successful run, every entry in the persisted
cache is either carried over unchanged from the pre-run cache, or was
freshly written during the run — and a freshly written entry always has
title, width and height present, with width and height positive whenever
the dimension probe reports positive values (the code stores the probed
values unchecked). -/
theorem cache_entries_complete_or_preexisting (env : Env) (widths : List Nat)
    (items : List (String × Bool)) (s : St) (ds : List ImageData) (s1 : St)
    (l : Log)
    (hpos : ∀ u, 0 < (env.dims u).1 ∧ 0 < (env.dims u).2)
    (h : buildGallery env widths items s = .ok ds s1 l) :
    ∀ p e, Cache.find (loadCache s1) p = some e →
      Cache.find (loadCache s) p = some e ∨
      ((∃ t, e.title = some t) ∧ (∃ w, e.width = some w ∧ 0 < w) ∧
       ∃ hh, e.height = some hh ∧ 0 < hh) := by
  unfold buildGallery at h
  split at h
  · cases h
  · rename_i r ds0 js0 sA lA h1
    split at h
    · simp only [RunResult.ok.injEq] at h
      obtain ⟨-, hsA, -⟩ := h
      subst hsA
      intro p e he
      rcases phase1_cache_fresh env widths items s ds0 js0 sA lA h1 p e he with
        hold | ⟨url, rfl⟩
      · exact Or.inl hold
      · exact Or.inr ⟨⟨_, rfl⟩, ⟨_, rfl, (hpos _).1⟩, ⟨_, rfl, (hpos _).2⟩⟩
    · dsimp only at h
      split at h
      · rename_i hok
        simp only [RunResult.ok.injEq] at h
        obtain ⟨-, hsA, -⟩ := h
        subst hsA
        intro p e he
        simp only [loadCache] at he
        rw [(runJobs_state env js0 sA).1] at he
        have he2 : Cache.find (loadCache sA) p = some e := by
          simpa [loadCache] using he
        rcases phase1_cache_fresh env widths items s ds0 js0 sA lA h1 p e he2 with
          hold | ⟨url, rfl⟩
        · exact Or.inl hold
        · exact Or.inr ⟨⟨_, rfl⟩, ⟨_, rfl, (hpos _).1⟩, ⟨_, rfl, (hpos _).2⟩⟩
      · cases h

/-- Witness for C3 (amended): the stale-cache run applied at key 999. -/
theorem cache_entries_complete_or_preexisting_witness :
    Cache.find (loadCache stStale) "999" = some ⟨some "t", none, none⟩ ∨
    ((∃ t, (⟨some "t", none, none⟩ : CacheEntry).title = some t) ∧
     (∃ w, (⟨some "t", none, none⟩ : CacheEntry).width = some w ∧ 0 < w) ∧
     ∃ hh, (⟨some "t", none, none⟩ : CacheEntry).height = some hh ∧ 0 < hh) :=
  cache_entries_complete_or_preexisting envW IMG_WIDTHS [(urlOne, false)] stStale
    [⟨"1", "T", some 10, some 20, none⟩] stStale Log.zero
    (fun _ => ⟨(by decide : (0 : Int) < 10), (by decide : (0 : Int) < 20)⟩)
    (by decide) "999" ⟨some "t", none, none⟩ (by decide)

/-- C4 counterexample: two items sharing photo id 7 on a fresh state —
the run succeeds but performs two metadata fetches and two downloads,
not exactly one of each. -/
theorem dedup_counterexample :
    (buildGallery envW IMG_WIDTHS [(urlSeven, false), (urlSeven, false)]
        stEmpty).isOk = true ∧
    (buildGallery envW IMG_WIDTHS [(urlSeven, false), (urlSeven, false)]
        stEmpty).logOf.fetches = 2 ∧
    (buildGallery envW IMG_WIDTHS [(urlSeven, false), (urlSeven, false)]
        stEmpty).logOf.downloads = 2 := by
  refine ⟨?_, ?_, ?_⟩ <;> decide

/-- C4 (amended).  Two items resolving to the same photo id do get
identical artifact paths (both descriptors carry the same id, and every
artifact path is a function of the id and the width) and share a single
temp path; but when at least one artifact width is missing on disk the
run performs one metadata fetch and one download *per item* — two of
each — and dispatches each missing encode twice.  Within-run dedup does
not happen; only artifacts already on disk from previous runs dedup. -/
theorem shared_pid_double_fetch (env : Env) (widths : List Nat)
    (u1 u2 : String) (d1 d2 : Bool) (s : St) (pid : Pid)
    (hp1 : photoId u1 = some pid) (hp2 : photoId u2 = some pid)
    (hmiss : missingOf widths s pid ≠ [])
    (henc : ∀ a b w dg, env.encodeOk a b w dg = true) :
    ∃ s1 l, buildGallery env widths [(u1, d1), (u2, d2)] s =
        .ok [⟨pid, (env.page u1).1, (freshEntry env u1).width,
              (freshEntry env u1).height,
              some ⟨tmpPath pid, pid, missingOf widths s pid, d1⟩⟩,
             ⟨pid, (env.page u2).1, (freshEntry env u2).width,
              (freshEntry env u2).height,
              some ⟨tmpPath pid, pid, missingOf widths s pid, d2⟩⟩] s1 l ∧
      l.fetches = 2 ∧ l.downloads = 2 ∧ l.probes = 2 ∧
      l.tmps = [tmpPath pid, tmpPath pid] ∧
      l.encoded.length = 2 * (missingOf widths s pid).length := by
  have hmiss2 : missingOf widths (workSt env u1 pid s) pid ≠ [] := by
    rw [missingOf_workSt]
    exact hmiss
  have e1 := genImageData_work env widths u1 d1 s pid hp1 (Or.inl hmiss)
  have e2 := genImageData_work env widths u2 d2 (workSt env u1 pid s) pid hp2
    (Or.inl hmiss2)
  rw [missingOf_workSt] at e2
  have hP2 := phase1_cons_eq env widths (u2, d2) [] (workSt env u1 pid s) _ _ _
    [] [] _ Log.zero e2 rfl
  have hP1 := phase1_cons_eq env widths (u1, d1) [(u2, d2)] s _ _ _ _ _ _ _ e1 hP2
  simp only [List.append_nil, Log.add_zero] at hP1
  have hjobs1 : jobsOf ⟨pid, (env.page u1).1, (freshEntry env u1).width,
      (freshEntry env u1).height,
      some ⟨tmpPath pid, pid, missingOf widths s pid, d1⟩⟩ =
      (missingOf widths s pid).map
        (fun w => ⟨tmpPath pid, avifPath pid w, w, d1⟩) := rfl
  have hjobs2 : jobsOf ⟨pid, (env.page u2).1, (freshEntry env u2).width,
      (freshEntry env u2).height,
      some ⟨tmpPath pid, pid, missingOf widths s pid, d2⟩⟩ =
      (missingOf widths s pid).map
        (fun w => ⟨tmpPath pid, avifPath pid w, w, d2⟩) := rfl
  rw [hjobs1, hjobs2] at hP1
  have hne : (missingOf widths s pid).map
        (fun w => (⟨tmpPath pid, avifPath pid w, w, d1⟩ : RJob)) ++
      (missingOf widths s pid).map
        (fun w => (⟨tmpPath pid, avifPath pid w, w, d2⟩ : RJob)) ≠ [] := by
    intro hc
    obtain ⟨hc1, -⟩ := List.append_eq_nil.mp hc
    exact hmiss (List.map_eq_nil_iff.mp hc1)
  have hok := runJobs_allOk env henc
    ((missingOf widths s pid).map
        (fun w => (⟨tmpPath pid, avifPath pid w, w, d1⟩ : RJob)) ++
      (missingOf widths s pid).map
        (fun w => (⟨tmpPath pid, avifPath pid w, w, d2⟩ : RJob)))
    (workSt env u2 pid (workSt env u1 pid s))
  have hbg := buildGallery_eq_ok env widths [(u1, d1), (u2, d2)] s _ _ _ _ hP1 hne hok
  refine ⟨_, _, hbg, ?_, ?_, ?_, ?_, ?_⟩ <;>
    simp [Log.add, workLog, runJobs_log, two_mul]

/-- Witness for C4 (amended): the fresh two-item run on photo 7. -/
theorem shared_pid_double_fetch_witness :
    ∃ s1 l, buildGallery envW IMG_WIDTHS [(urlSeven, false), (urlSeven, false)]
        stEmpty =
        .ok [⟨"7", (envW.page urlSeven).1, (freshEntry envW urlSeven).width,
              (freshEntry envW urlSeven).height,
              some ⟨tmpPath "7", "7", missingOf IMG_WIDTHS stEmpty "7", false⟩⟩,
             ⟨"7", (envW.page urlSeven).1, (freshEntry envW urlSeven).width,
              (freshEntry envW urlSeven).height,
              some ⟨tmpPath "7", "7", missingOf IMG_WIDTHS stEmpty "7", false⟩⟩]
          s1 l ∧
      l.fetches = 2 ∧ l.downloads = 2 ∧ l.probes = 2 ∧
      l.tmps = [tmpPath "7", tmpPath "7"] ∧
      l.encoded.length = 2 * (missingOf IMG_WIDTHS stEmpty "7").length :=
  shared_pid_double_fetch envW IMG_WIDTHS urlSeven urlSeven false false stEmpty
    "7" (by decide) (by decide) (by decide) (fun _ _ _ _ => rfl)

/-- C5 counterexample: a fully built gallery re-run with one added
target width succeeds but re-fetches the item's metadata page (one
fetch, where the claim demands zero). -/
theorem delta_regen_counterexample :
    (buildGallery envW (IMG_WIDTHS ++ [400]) [(urlOne, false)] stBuilt).isOk =
      true ∧
    (buildGallery envW (IMG_WIDTHS ++ [400])
        [(urlOne, false)] stBuilt).logOf.fetches = 1 := by
  constructor <;> decide

theorem phase1_delta (env : Env) (widths : List Nat) (newW : Nat) (s0 : St) :
    ∀ (items : List (String × Bool)) (pids : List Pid) (s : St),
      List.Forall₂ (fun (it : String × Bool) (p : Pid) =>
        photoId it.1 = some p ∧ completeAt s0 p = true ∧
        (∀ w ∈ widths, avifPath p w ∈ s0.files) ∧ avifPath p newW ∉ s0.files)
        items pids →
      onlyTmpsAdded s0 s →
      (∀ p, completeAt s0 p = true → completeAt s p = true) →
      ∃ ds js s1 l, phase1 env (widths ++ [newW]) items s = some (ds, js, s1, l) ∧
        js.length = pids.length ∧ (∀ j ∈ js, j.width = newW) ∧
        l.fetches = pids.length ∧ l.downloads = pids.length ∧
        l.probes = pids.length ∧ l.encoded = [] := by
  intro items
  induction items with
  | nil =>
    intro pids s hf _ _
    cases hf
    exact ⟨[], [], s, Log.zero, rfl, rfl, fun j hj => absurd hj (List.not_mem_nil j),
      rfl, rfl, rfl, rfl⟩
  | cons it rest ih =>
    intro pids s hf hshape hcomp
    cases hf with
    | cons hhead htail =>
      rename_i p ps
      obtain ⟨hp, hc0, hbuilt, hnew⟩ := hhead
      obtain ⟨url, danger⟩ := it
      have hmiss : missingOf (widths ++ [newW]) s p = [newW] := by
        unfold missingOf
        rw [List.filter_append]
        have hl : widths.filter
            (fun w => decide (avifPath p w ∉ s.files)) = [] := by
          refine List.filter_eq_nil_iff.mpr fun w hw => ?_
          simp only [decide_eq_true_eq, Decidable.not_not]
          exact hshape.1 (hbuilt w hw)
        have hnotin : avifPath p newW ∉ s.files := by
          intro hmem
          rcases hshape.2 _ hmem with h0 | ⟨q, hq⟩
          · exact hnew h0
          · exact avif_ne_tmp p q newW hq
        have hr : [newW].filter
            (fun w => decide (avifPath p w ∉ s.files)) = [newW] := by
          simp [hnotin]
        rw [hl, hr, List.nil_append]
      have hcS : completeAt s p = true := hcomp p hc0
      have htrig : missingOf (widths ++ [newW]) s p ≠ [] := by
        rw [hmiss]
        simp
      have e1 := genImageData_work env (widths ++ [newW]) url danger s p hp
        (Or.inl htrig)
      obtain ⟨ds, js, s1, l, hrest, hlen, hwid, hfet, hdl, hpr, hencd⟩ :=
        ih ps (workSt env url p s) htail
          (onlyTmpsAdded_trans _ _ _ hshape (onlyTmpsAdded_workSt env url p s))
          (fun q hq => completeAt_workSt env url p q s (hcomp q hq))
      have hjD : jobsOf ⟨p, (env.page url).1, (freshEntry env url).width,
          (freshEntry env url).height,
          some ⟨tmpPath p, p, missingOf (widths ++ [newW]) s p, danger⟩⟩ =
          [⟨tmpPath p, avifPath p newW, newW, danger⟩] := by
        simp [jobsOf, hmiss]
      refine ⟨_, _, s1, Log.add (workLog p) l,
        phase1_cons_eq env (widths ++ [newW]) (url, danger) rest s _ _ _
          ds js s1 l e1 hrest, ?_, ?_, ?_, ?_, ?_, ?_⟩
      · rw [hjD]
        simp [hlen]
      · rw [hjD]
        intro j hj
        rcases List.mem_append.mp hj with hj1 | hj2
        · rw [List.mem_singleton.mp hj1]
        · exact hwid j hj2
      · simp [Log.add, workLog, hfet, Nat.add_comm]
      · simp [Log.add, workLog, hdl, Nat.add_comm]
      · simp [Log.add, workLog, hpr, Nat.add_comm]
      · simp [Log.add, workLog, hencd]

/-- C5 (amended).  Given an already fully built gallery, adding one new
target dimension and re-running causes exactly one encode job per item,
all for the new dimension only (no re-encode of previously built
dimensions) — but each item's metadata page is re-fetched and its
original re-downloaded and re-probed, one of each per item, because the
work trigger forces full re-acquisition whenever any artifact is
missing. -/
theorem delta_regen_refetches (env : Env) (widths : List Nat) (newW : Nat)
    (items : List (String × Bool)) (pids : List Pid) (s : St)
    (hf : List.Forall₂ (fun (it : String × Bool) (p : Pid) =>
      photoId it.1 = some p ∧ completeAt s p = true ∧
      (∀ w ∈ widths, avifPath p w ∈ s.files) ∧ avifPath p newW ∉ s.files)
      items pids)
    (henc : ∀ a b w dg, env.encodeOk a b w dg = true) :
    ∃ ds s1 l, buildGallery env (widths ++ [newW]) items s = .ok ds s1 l ∧
      l.fetches = items.length ∧ l.downloads = items.length ∧
      l.probes = items.length ∧ l.encoded.length = items.length ∧
      ∀ e ∈ l.encoded, e.2 = newW := by
  obtain ⟨ds, js, s1, l, h1, hlen, hwid, hfet, hdl, hpr, hencd⟩ :=
    phase1_delta env widths newW s items pids s hf (onlyTmpsAdded_refl s)
      (fun _ h => h)
  have hlen2 : items.length = pids.length := hf.length_eq
  by_cases hje : js = []
  · subst hje
    refine ⟨ds, s1, l, buildGallery_eq_noJobs env (widths ++ [newW]) items s
      ds s1 l h1, ?_, ?_, ?_, ?_, ?_⟩
    · rw [hfet, hlen2]
    · rw [hdl, hlen2]
    · rw [hpr, hlen2]
    · rw [hencd, hlen2, ← hlen]
      rfl
    · intro e he
      rw [hencd] at he
      cases he
  · have hok := runJobs_allOk env henc js s1
    refine ⟨ds, _, _,
      buildGallery_eq_ok env (widths ++ [newW]) items s ds js s1 l h1 hje hok,
      ?_, ?_, ?_, ?_, ?_⟩
    · simp [Log.add, runJobs_log, hfet, hlen2]
    · simp [Log.add, runJobs_log, hdl, hlen2]
    · simp [Log.add, runJobs_log, hpr, hlen2]
    · simp [Log.add, runJobs_log, hencd, hlen, hlen2]
    · intro e he
      simp only [Log.add, runJobs_log, hencd, List.nil_append] at he
      obtain ⟨j, hj, hej⟩ := List.mem_map.mp he
      rw [← hej]
      exact hwid j hj

/-- Witness for C5 (amended): photo 1 fully built, width 400 added. -/
theorem delta_regen_refetches_witness :
    ∃ ds s1 l, buildGallery envW (IMG_WIDTHS ++ [400]) [(urlOne, false)]
        stBuilt = .ok ds s1 l ∧
      l.fetches = 1 ∧ l.downloads = 1 ∧ l.probes = 1 ∧
      l.encoded.length = 1 ∧ ∀ e ∈ l.encoded, e.2 = 400 :=
  delta_regen_refetches envW IMG_WIDTHS 400 [(urlOne, false)] ["1"] stBuilt
    (List.Forall₂.cons ⟨by decide, by decide, by decide, by decide⟩
      List.Forall₂.nil)
    (fun _ _ _ _ => rfl)

/-- C6 counterexample: one fresh item whose encode job fails — the run
errors out of the worker pool and the batch temp-deletion step never
executes, so the item's own temp original is leaked at run end
(contradicting "a failing job does not leak its own or sibling jobs'
temp files"). -/
theorem cleanup_leak_counterexample :
    buildGallery envBad IMG_WIDTHS [(urlSeven, false)] stEmpty =
      .err ⟨some [("7", ⟨some "T", some 10, some 20⟩)],
            ["images/7_src.jpg"], true⟩
        ⟨1, 1, 1, 1, ["images/7_src.jpg"],
         [("images/7_800.avif", 800), ("images/7_1400.avif", 1400),
          ("images/7_2000.avif", 2000), ("images/7_3000.avif", 3000)]⟩ ∧
    tmpPath "7" ∈
      (⟨some [("7", ⟨some "T", some 10, some 20⟩)],
        ["images/7_src.jpg"], true⟩ : St).files := by
  constructor <;> decide

theorem phase1_fresh (env : Env) (widths : List Nat) (s0 : St) :
    ∀ (items : List (String × Bool)) (pids : List Pid) (s : St),
      List.Forall₂ (fun (it : String × Bool) (p : Pid) =>
        photoId it.1 = some p ∧ missingOf widths s0 p ≠ []) items pids →
      onlyTmpsAdded s0 s →
      ∃ ds js s1 l, phase1 env widths items s = some (ds, js, s1, l) ∧
        l.tmps = pids.map tmpPath ∧
        ∀ p ∈ pids, ∃ j ∈ js, j.tmp = tmpPath p := by
  intro items
  induction items with
  | nil =>
    intro pids s hf _
    cases hf
    exact ⟨[], [], s, Log.zero, rfl, rfl, fun p hp => absurd hp (List.not_mem_nil p)⟩
  | cons it rest ih =>
    intro pids s hf hshape
    cases hf with
    | cons hhead htail =>
      rename_i p ps
      obtain ⟨hp, hm0⟩ := hhead
      obtain ⟨url, danger⟩ := it
      obtain ⟨w0, hw0⟩ := List.exists_mem_of_ne_nil _ hm0
      obtain ⟨hw0w, hw0f⟩ := (mem_missingOf widths s0 p w0).mp hw0
      have hnot : avifPath p w0 ∉ s.files := by
        intro hmem
        rcases hshape.2 _ hmem with h0 | ⟨q, hq⟩
        · exact hw0f h0
        · exact avif_ne_tmp p q w0 hq
      have hmS : missingOf widths s p ≠ [] := by
        intro hnil
        exact hnot ((missingOf_eq_nil_iff widths s p).mp hnil w0 hw0w)
      have e1 := genImageData_work env widths url danger s p hp (Or.inl hmS)
      obtain ⟨ds, js, s1, l, hrest, htmps, hjob⟩ :=
        ih ps (workSt env url p s) htail
          (onlyTmpsAdded_trans _ _ _ hshape (onlyTmpsAdded_workSt env url p s))
      refine ⟨_, _, s1, Log.add (workLog p) l,
        phase1_cons_eq env widths (url, danger) rest s _ _ _ ds js s1 l e1 hrest,
        ?_, ?_⟩
      · simp [Log.add, workLog, htmps]
      · intro q hq
        rcases List.mem_cons.mp hq with rfl | hq2
        · obtain ⟨wm, hwm⟩ := List.exists_mem_of_ne_nil _ hmS
          refine ⟨⟨tmpPath q, avifPath q wm, wm, danger⟩, ?_, rfl⟩
          refine List.mem_append.mpr (Or.inl ?_)
          have hjb : (⟨q, (env.page url).1, (freshEntry env url).width,
              (freshEntry env url).height,
              some ⟨tmpPath q, q, missingOf widths s q, danger⟩⟩ :
              ImageData).resizeJob =
              some ⟨tmpPath q, q, missingOf widths s q, danger⟩ := rfl
          exact (mem_jobsOf _ _ hjb _).mpr ⟨wm, hwm, rfl⟩
        · obtain ⟨j, hj, hjt⟩ := hjob q hq2
          exact ⟨j, List.mem_append.mpr (Or.inr hj), hjt⟩

/-- C6 (amended).  On a run where every item needs fresh acquisition
with at least one missing artifact width (so each spawns an encode job)
and all encode jobs succeed, exactly N distinct temp originals are
written — one per item — and all N are removed by run end, the deletion
step firing only after the whole batch has run; but when an encode job
fails, the deletion step does not execute at all and every temp file of
the batch is leaked (see the counterexample). -/
theorem batch_cleanup_success (env : Env) (widths : List Nat)
    (items : List (String × Bool)) (pids : List Pid) (s : St)
    (hf : List.Forall₂ (fun (it : String × Bool) (p : Pid) =>
      photoId it.1 = some p ∧ missingOf widths s p ≠ []) items pids)
    (hnd : pids.Nodup)
    (henc : ∀ a b w dg, env.encodeOk a b w dg = true) :
    ∃ ds s1 l, buildGallery env widths items s = .ok ds s1 l ∧
      l.tmps = pids.map tmpPath ∧ l.tmps.length = items.length ∧
      l.tmps.Nodup ∧ ∀ t ∈ l.tmps, t ∉ s1.files := by
  obtain ⟨ds, js, s1, l, h1, htmps, hjob⟩ :=
    phase1_fresh env widths s items pids s hf (onlyTmpsAdded_refl s)
  have hlen2 : items.length = pids.length := hf.length_eq
  by_cases hje : js = []
  · cases pids with
    | nil =>
      have hitems : items = [] := List.length_eq_zero.mp (by rw [hlen2]; rfl)
      subst hje
      refine ⟨ds, s1, l, buildGallery_eq_noJobs env widths items s ds s1 l h1,
        by simpa using htmps, ?_, ?_, ?_⟩
      · rw [htmps, hitems]
        rfl
      · rw [htmps]
        exact List.nodup_nil
      · intro t ht
        rw [htmps] at ht
        cases ht
    | cons p ps =>
      obtain ⟨j, hj, -⟩ := hjob p (List.mem_cons_self p ps)
      rw [hje] at hj
      cases hj
  · have hok := runJobs_allOk env henc js s1
    refine ⟨ds, _, _, buildGallery_eq_ok env widths items s ds js s1 l h1 hje hok,
      ?_, ?_, ?_, ?_⟩
    · simp [Log.add, runJobs_log, htmps]
    · simp [Log.add, runJobs_log, htmps, hlen2]
    · simp only [Log.add, runJobs_log, List.append_nil]
      rw [htmps]
      exact hnd.map tmpPath_inj
    · intro t ht
      simp only [Log.add, runJobs_log, List.append_nil] at ht
      rw [htmps] at ht
      obtain ⟨q, hq, hqt⟩ := List.mem_map.mp ht
      obtain ⟨j, hj, hjt⟩ := hjob q hq
      intro hmem
      have hfil := (List.mem_filter.mp hmem).2
      simp only [decide_eq_true_eq] at hfil
      refine hfil ?_
      refine List.mem_dedup.mpr ?_
      rw [← hqt, ← hjt]
      exact List.mem_map.mpr ⟨j, hj, rfl⟩

/-- Witness for C6 (amended): one fresh item, all encodes succeed — the
single temp original is created and removed. -/
theorem batch_cleanup_success_witness :
    ∃ ds s1 l, buildGallery envW IMG_WIDTHS [(urlSeven, false)] stEmpty =
        .ok ds s1 l ∧
      l.tmps = ["7"].map tmpPath ∧ l.tmps.length = 1 ∧ l.tmps.Nodup ∧
      ∀ t ∈ l.tmps, t ∉ s1.files :=
  batch_cleanup_success envW IMG_WIDTHS [(urlSeven, false)] ["7"] stEmpty
    (List.Forall₂.cons ⟨by decide, by decide⟩ List.Forall₂.nil)
    (by simp) (fun _ _ _ _ => rfl)

/-- C7 counterexample: for a concrete encode job, the pre-encoding
image-manipulation command is byte-identical with and without the risk
flag — so setting the flag injects no dithering noise into the image
before the primary encoding; it changes only the quality arguments. -/
theorem noise_injection_counterexample :
    (resizeCommands "images/7_src.jpg" "images/7_800.avif" 800 true).head? =
      (resizeCommands "images/7_src.jpg" "images/7_800.avif" 800 false).head? ∧
    (resizeCommands "images/7_src.jpg" "images/7_800.avif" 800 true).head? =
      some ["magick", "images/7_src.jpg", "-auto-orient", "-strip",
            "-colorspace", "sRGB", "-resize", "800", "images/7_800_tmp.png"] := by
  constructor <;> decide

/-- C7 (amended).  The primary (cavif) encode quality is 90 exactly when
the risk flag is set and 85 otherwise, and the JPEG fallback quality is
95 when set and 90 otherwise; the flag changes nothing else — in
particular the image-manipulation command that precedes the primary
encoding does not depend on the flag, so no dithering noise is
injected. -/
theorem resize_risk_policy (src dest : String) (w : Nat) (danger : Bool) :
    (resizeCommands src dest w danger)[1]? =
      some ["cavif", "--quality", if danger then "90" else "85", "--speed", "1",
            "--depth", "8", "--color", "rgb", "--overwrite", tmpPngOf dest,
            "--output", dest] ∧
    (resizeCommands src dest w danger)[2]? =
      some ["magick", tmpPngOf dest, "-quality", if danger then "95" else "90",
            jpegOf dest] ∧
    (resizeCommands src dest w danger)[0]? =
      (resizeCommands src dest w false)[0]? := by
  cases danger <;> exact ⟨rfl, rfl, rfl⟩

theorem columnImages_skip_filter (cache : Cache) :
    ∀ (ids : List String) (i k : Nat),
      (∀ u ∈ ids, (photoId u).isSome = true) →
      (∀ u ∈ ids,
        Option.all CacheEntry.complete ((photoId u).bind (Cache.find cache)) = true) →
      columnImages ids cache i =
        columnImages (ids.filter fun u =>
          ((photoId u).bind (Cache.find cache)).isSome) cache k ∧
      (columnImages ids cache i).isSome = true := by
  intro ids
  induction ids with
  | nil =>
    intro i k _ _
    exact ⟨rfl, rfl⟩
  | cons u rest ih =>
    intro i k hparse hcomp
    obtain ⟨p, hp⟩ :=
      Option.isSome_iff_exists.mp (hparse u (List.mem_cons_self u rest))
    have htp : ∀ v ∈ rest, (photoId v).isSome = true :=
      fun v hv => hparse v (List.mem_cons_of_mem u hv)
    have htc : ∀ v ∈ rest,
        Option.all CacheEntry.complete ((photoId v).bind (Cache.find cache)) = true :=
      fun v hv => hcomp v (List.mem_cons_of_mem u hv)
    cases hfind : Cache.find cache p with
    | none =>
      have hpredF : ((photoId u).bind (Cache.find cache)).isSome = false := by
        simp [hp, hfind]
      obtain ⟨ih1, ih2⟩ := ih (i + 1) k htp htc
      constructor
      · simp only [columnImages, hp, hfind, List.filter_cons, Option.some_bind,
          Option.isSome_none, Bool.false_eq_true, if_false]
        exact ih1
      · simp only [columnImages, hp, hfind]
        exact ih2
    | some e =>
      have hcompl : e.complete = true := by
        simpa [hp, hfind] using hcomp u (List.mem_cons_self u rest)
      obtain ⟨et, ew, eh⟩ := e
      cases et with
      | none => simp [CacheEntry.complete] at hcompl
      | some t =>
      cases ew with
      | none => simp [CacheEntry.complete] at hcompl
      | some wv =>
      cases eh with
      | none => simp [CacheEntry.complete] at hcompl
      | some hv =>
      have hpredT : ((photoId u).bind (Cache.find cache)).isSome = true := by
        simp [hp, hfind]
      obtain ⟨ih1, ih2⟩ := ih (i + 1) (k + 1) htp htc
      constructor
      · simp only [columnImages, hp, hfind, buildImageHtml, List.filter_cons,
          Option.some_bind, Option.isSome_some, if_true]
        rw [ih1]
      · simp only [columnImages, hp, hfind, buildImageHtml]
        cases ho : columnImages rest cache (i + 1) with
        | none => rw [ho] at ih2; cases ih2
        | some hs => simp [ho]

theorem columnImages_empty_cache :
    ∀ (ids : List String) (i : Nat), (∀ u ∈ ids, (photoId u).isSome = true) →
      columnImages ids [] i = some [] := by
  intro ids
  induction ids with
  | nil =>
    intro i _
    rfl
  | cons u rest ih =>
    intro i hparse
    obtain ⟨p, hp⟩ :=
      Option.isSome_iff_exists.mp (hparse u (List.mem_cons_self u rest))
    simp only [columnImages, hp, Cache.find]
    exact ih (i + 1) (fun v hv => hparse v (List.mem_cons_of_mem u hv))

/-- C10.  Silent skip in column rendering: `_build_column_html` does not
fail on items absent from the cache — it renders exactly the cached
items, in input order (rendering the whole list equals rendering its
cached sublist), and with an empty cache it yields the column div with
no image elements and no error.  (Hypotheses: every URL parses, and
every entry actually found in the cache is complete — an incomplete
entry would raise a `KeyError` in `_build_image_html`.) -/
theorem column_html_silent_skip (ids : List String) (cache : Cache) (cid : String)
    (hparse : ∀ u ∈ ids, (photoId u).isSome = true)
    (hcomplete : ∀ u ∈ ids,
      Option.all CacheEntry.complete ((photoId u).bind (Cache.find cache)) = true) :
    (buildColumnHtml ids cache cid).isSome = true ∧
    buildColumnHtml ids cache cid =
      buildColumnHtml (ids.filter fun u =>
        ((photoId u).bind (Cache.find cache)).isSome) cache cid ∧
    buildColumnHtml ids [] cid =
      some ("<div class=\"column\" id=\"" ++ cid ++ "\">" ++ "</div>") := by
  obtain ⟨heq, hsome⟩ := columnImages_skip_filter cache ids 0 0 hparse hcomplete
  refine ⟨?_, ?_, ?_⟩
  · unfold buildColumnHtml
    cases ho : columnImages ids cache 0 with
    | none => rw [ho] at hsome; cases hsome
    | some hs => simp [ho]
  · unfold buildColumnHtml
    rw [heq]
  · unfold buildColumnHtml
    rw [columnImages_empty_cache ids 0 hparse]
    simp [String.join]

/-- Witness for C10: a two-item column where only photo 1 is cached —
photo 7 is silently skipped. -/
theorem column_html_silent_skip_witness :
    (buildColumnHtml [urlOne, urlSeven] [("1", entryOne)]
        "one-col-container").isSome = true ∧
    buildColumnHtml [urlOne, urlSeven] [("1", entryOne)] "one-col-container" =
      buildColumnHtml ([urlOne, urlSeven].filter fun u =>
        ((photoId u).bind (Cache.find [("1", entryOne)])).isSome)
        [("1", entryOne)] "one-col-container" ∧
    buildColumnHtml [urlOne, urlSeven] [] "one-col-container" =
      some ("<div class=\"column\" id=\"" ++ "one-col-container" ++ "\">" ++
            "</div>") :=
  column_html_silent_skip [urlOne, urlSeven] [("1", entryOne)]
    "one-col-container" (by decide) (by decide)

end PhotoGen
